import Mathlib

/-!
# Verification of the recursive research-tree orchestrator

A shallow embedding of `deepResearch` and its helpers (the recursive
research-tree orchestrator of this repository), together with proofs of the
frozen claims about it.

Modelling conventions:
* The external collaborators (language-model streams, the web-search
  provider, localization) are supplied by an explicit environment type
  (`Env` / `BranchEnv`): the structured stream consumer's output is given as
  a list of typed chunks, exactly the classified fragments the orchestrator
  consumes, and a web search either returns results or fails.
* JavaScript optional/partial fields become `Option`; JS string truthiness
  (`!x` for `undefined` and `""`) is `truthyStr`; interpolation of a missing
  value renders the literal `"undefined"` as JS does.
* `onProgress` callbacks become the returned event trace, in emission order.
* The shared concurrency limiter's mutations (`globalLimit.concurrency++`
  and `--`, plus admission/settlement of one unit of work) are returned as a
  trace of `LimOp` operations in execution order, so that capacity and
  in-flight evolution can be read off the sequential execution.
* The prompt strings sent to the model are outside the modelled boundary
  (they only influence the external stream, which the environment supplies),
  so prompt-building code is reduced to the parts the orchestrator inspects.
-/

set_option linter.unusedVariables false

/-- A learning extracted from one search result.  All three fields are
optional at runtime: the streamed values are deep-partial, so `url` and
`learning` may still be absent, and `title` is only back-filled from the raw
search results. -/
structure Learning where
  url : Option String
  learning : Option String
  title : Option String
deriving DecidableEq, Repr

/-- The resolved value of one `deepResearch` call: `{ learnings }`. -/
structure ResearchResult where
  learnings : List Learning
deriving DecidableEq, Repr

/-- One raw web-search result as returned by the search provider. -/
structure WebSearchResult where
  url : String
  title : Option String
  content : String
deriving DecidableEq, Repr

/-- A partially-streamed search query: both fields of `SearchQuery` may be
absent while the model output is still streaming (`PartialSearchQuery`). -/
structure PartialSearchQuery where
  query : Option String
  researchGoal : Option String
deriving DecidableEq, Repr

/-- An entry of the orchestrator's `searchQueries` list:
`PartialSearchQuery & { nodeId: string }`. -/
structure NodeSearchQuery where
  query : Option String
  researchGoal : Option String
  nodeId : String
deriving DecidableEq, Repr

/-- A fully-settled processed search result (`searchResultTypeSchema`). -/
structure ProcessedSearchResult where
  learnings : List Learning
  followUpQuestions : List String
deriving DecidableEq, Repr

/-- The deep-partial form of `ProcessedSearchResult` accumulated while the
processing stream runs. -/
structure PartialProcessedSearchResult where
  learnings : Option (List Learning)
  followUpQuestions : Option (List String)
deriving DecidableEq, Repr

/-- The node to retry (`DeepResearchNode`), restricted to the fields
`deepResearch` reads: `id`, `label` and `researchGoal`. -/
structure DeepResearchNode where
  id : String
  label : String
  researchGoal : Option String
deriving DecidableEq, Repr

/-- The `ResearchStep` progress-event union.  The source spells the
processing tags `processing_serach_result(_reasoning)`; the constructor names
here use the corrected spelling for the same events. -/
inductive ResearchStep where
  | generatingQuery (result : NodeSearchQuery) (nodeId : String) (parentNodeId : Option String)
  | generatingQueryReasoning (delta : String) (nodeId : String)
  | generatedQuery (query : Option String) (result : NodeSearchQuery) (nodeId : String)
  | searching (query : String) (nodeId : String)
  | searchComplete (results : List WebSearchResult) (nodeId : String)
  | processingSearchResult (query : String) (result : PartialProcessedSearchResult) (nodeId : String)
  | processingSearchResultReasoning (delta : String) (nodeId : String)
  | nodeComplete (result : Option ProcessedSearchResult) (nodeId : String)
  | error (message : String) (nodeId : String)
  | complete (learnings : List Learning)
deriving DecidableEq, Repr

/-- One typed chunk of the query-generation stream, as yielded by the
structured stream consumer over `generateSearchQueries`: a cumulative object
snapshot (whose `queries` field may still be absent), a reasoning delta, a
stream error, or a bad end. -/
inductive GenChunk where
  | object (queries : Option (List PartialSearchQuery))
  | reasoning (delta : String)
  | error (message : String)
  | badEnd
deriving DecidableEq, Repr

/-- One typed chunk of the result-processing stream over
`processSearchResult`. -/
inductive ProcChunk where
  | object (value : PartialProcessedSearchResult)
  | reasoning (delta : String)
  | error (message : String)
  | badEnd
deriving DecidableEq, Repr

/-- One operation on the shared concurrency limiter, in execution order:
`inc`/`dec` are `globalLimit.concurrency++`/`--`, and `acquire`/`release`
bracket one unit of work run under the limiter. -/
inductive LimOp where
  | inc
  | dec
  | acquire
  | release
deriving DecidableEq, Repr

mutual
/-- The environment of one `deepResearch` invocation: the chunks its
query-generation stream yields, and one branch environment per fanned-out
child (consumed positionally). -/
inductive Env : Type where
  | mk : List GenChunk → List BranchEnv → Env

/-- The environment of one fanned-out branch: the web-search outcome, the
chunks of its processing stream, an optional unexpected processing failure
(the stream's iterator rejecting after the listed chunks, reachable only
when no `error`/`bad-end` chunk broke the loop first), and the environment
of the recursive call the branch may make. -/
inductive BranchEnv : Type where
  | mk : Except String (List WebSearchResult) → List ProcChunk → Option String → Env → BranchEnv
end

/-- The generation chunks of an environment. -/
def Env.genChunks : Env → List GenChunk
  | .mk g _ => g

/-- The branch environments of an environment. -/
def Env.branches : Env → List BranchEnv
  | .mk _ b => b

/-- The web-search outcome of a branch environment. -/
def BranchEnv.search : BranchEnv → Except String (List WebSearchResult)
  | .mk s _ _ _ => s

/-- The processing-stream chunks of a branch environment. -/
def BranchEnv.procChunks : BranchEnv → List ProcChunk
  | .mk _ c _ _ => c

/-- The optional unexpected processing failure of a branch environment. -/
def BranchEnv.procThrow : BranchEnv → Option String
  | .mk _ _ t _ => t

/-- The sub-environment a branch hands to its recursive call. -/
def BranchEnv.sub : BranchEnv → Env
  | .mk _ _ _ e => e

/-- The environment used for a branch the supplied environment does not
describe: its search fails, so the branch takes its error fallback. -/
def defaultBranchEnv : BranchEnv :=
  .mk (.error "branch environment not specified") [] none (.mk [] [])

instance : Inhabited BranchEnv := ⟨defaultBranchEnv⟩

/-- JavaScript truthiness of an optional string: `undefined` and `""` are
falsy, every other string is truthy. -/
def truthyStr : Option String → Bool
  | some s => s != ""
  | none => false

/-- JavaScript string interpolation of a possibly-missing string:
`${undefined}` renders as the literal `"undefined"`. -/
def jsString : Option String → String
  | some s => s
  | none => "undefined"

/-- `childNodeId(parentNodeId, currentIndex)`: child `i` of parent `p` is
`"{p}-{i}"`. -/
def childNodeId (parentNodeId : String) (currentIndex : Nat) : String :=
  parentNodeId ++ "-" ++ toString currentIndex

/-- Everything after (and excluding) the first `'-'`, on a reversed
character list; helper for `parentOf`. -/
def dropThroughDash : List Char → List Char
  | [] => []
  | c :: cs => if c = '-' then cs else dropThroughDash cs

/-- Modelled from the spec: the repository's UI layer (not under `src/`)
recovers a node's parent by taking the NodeId's prefix before the last `-`
("parsing a NodeId's prefix before the last `-` yields its parent's
NodeId"). -/
def parentOf (s : String) : String :=
  ⟨(dropThroughDash s.data.reverse).reverse⟩

/-- The message reported on a `bad-end` chunk.  The source reports the
localized string `t('invalidStructuredOutput')`; localization is an external
collaborator, represented here by the message key. -/
def invalidStructuredOutputMessage : String := "invalidStructuredOutput"

/-- Back-fill a learning's `title` by looking its `url` up among the raw
search results (first match; no title when none matches or the match has no
title). -/
def addTitle (results : List WebSearchResult) (l : Learning) : Learning :=
  { l with title := (results.find? (fun r => some r.url == l.url)).bind WebSearchResult.title }

/-- The query text of a recursive call: the branch's research goal followed
by its follow-up questions, one per line.  (The template's indentation
whitespace, trimmed in the source, is normalized away: the prompt text is an
external-collaborator concern.) -/
def nextQueryText (researchGoal : Option String) (followUps : List String) : String :=
  "Previous research goal: " ++ jsString researchGoal ++
    "\nFollow-up research directions:" ++ String.join (followUps.map (fun q => "\n" ++ q))

/-- Assign child NodeIds positionally: entry `i` of the filtered query list
becomes a `NodeSearchQuery` with `childNodeId parent i` (`i` starting at
`start`). -/
def assignIds (parent : String) (start : Nat) : List PartialSearchQuery → List NodeSearchQuery
  | [] => []
  | q :: qs => ⟨q.query, q.researchGoal, childNodeId parent start⟩ :: assignIds parent (start + 1) qs

/-- One settled query-array snapshot: drop entries whose query text is the
literal `'undefined'` fallback, then assign child NodeIds by 0-based position
in the filtered list. -/
def settleQueries (nodeId : String) (qs : List PartialSearchQuery) : List NodeSearchQuery :=
  assignIds nodeId 0 (qs.filter (fun q => q.query != some "undefined"))

/-- First-occurrence-keyed deduplication by `url`, mirroring the `urlMap`
loop of `deepResearch`: `seen` is the set of urls already in the output. -/
def dedupeKeep (seen : List (Option String)) : List Learning → List Learning
  | [] => []
  | l :: ls =>
    if l.url ∈ seen then dedupeKeep seen ls
    else l :: dedupeKeep (l.url :: seen) ls

/-- Conclude a node's results: iterate the settled branch results in child
order and each result's learnings in list order, keeping each `url`'s first
occurrence. -/
def concludeResults (results : List ResearchResult) : List Learning :=
  dedupeKeep [] (results.map ResearchResult.learnings).flatten

/-- Output of the query-generation `for await` loop: the events it emits and
the final captured `searchQueries` list. -/
structure GenOut where
  events : List ResearchStep
  queries : List NodeSearchQuery
deriving DecidableEq, Repr

/-- The query-generation `for await` loop.  On each settled object snapshot
whose `queries` field is present, the child list is recomputed from scratch
(filter, then positional child NodeIds) and a `generating_query` event is
reported per child against the child's id with the generating node as
parent; reasoning deltas go to the generating node; an `error` or `bad-end`
chunk reports one `error` event against the generating node and breaks the
loop, keeping whatever children were captured. -/
def genLoop (nodeId : String) (chunks : List GenChunk) (acc : List NodeSearchQuery) : GenOut :=
  match chunks with
  | [] => ⟨[], acc⟩
  | .object none :: rest => genLoop nodeId rest acc
  | .object (some qs) :: rest =>
    let sqs := settleQueries nodeId qs
    let out := genLoop nodeId rest sqs
    ⟨sqs.map (fun q => ResearchStep.generatingQuery q q.nodeId (some nodeId)) ++ out.events,
      out.queries⟩
  | .reasoning d :: rest =>
    let out := genLoop nodeId rest acc
    ⟨.generatingQueryReasoning d nodeId :: out.events, out.queries⟩
  | .error m :: _ => ⟨[.error m nodeId], acc⟩
  | .badEnd :: _ => ⟨[.error invalidStructuredOutputMessage nodeId], acc⟩

/-- Output of the result-processing `for await` loop: the events it emits,
the last settled partial value, and whether the loop was broken by an
`error`/`bad-end` chunk. -/
structure ProcOut where
  events : List ResearchStep
  result : PartialProcessedSearchResult
  broke : Bool
deriving DecidableEq, Repr

/-- The result-processing `for await` loop: object snapshots replace the
accumulated `searchResult` and report progress, reasoning deltas are
relayed, and an `error`/`bad-end` chunk reports one `error` event and breaks
the loop (the branch then proceeds with the partial data it has). -/
def procLoop (nodeId query : String) (chunks : List ProcChunk)
    (acc : PartialProcessedSearchResult) : ProcOut :=
  match chunks with
  | [] => ⟨[], acc, false⟩
  | .object v :: rest =>
    let out := procLoop nodeId query rest v
    ⟨.processingSearchResult query v nodeId :: out.events, out.result, out.broke⟩
  | .reasoning d :: rest =>
    let out := procLoop nodeId query rest acc
    ⟨.processingSearchResultReasoning d nodeId :: out.events, out.result, out.broke⟩
  | .error m :: _ => ⟨[.error m nodeId], acc, true⟩
  | .badEnd :: _ => ⟨[.error invalidStructuredOutputMessage nodeId], acc, true⟩

/-- The outcome of computing a node's child-query list: the node id the rest
of the invocation uses, the events emitted before fan-out, and the child
queries. -/
structure SelOut where
  activeNodeId : String
  events : List ResearchStep
  queries : List NodeSearchQuery
deriving DecidableEq, Repr

/-- The full query-generation phase: run the generation loop, then report
one payload-less `node_complete` event for the generating node and one
`generated_query` event per final child. -/
def genPhase (nodeId : String) (chunks : List GenChunk) : SelOut :=
  let g := genLoop nodeId chunks []
  ⟨nodeId,
    g.events ++ [.nodeComplete none nodeId] ++
      g.queries.map (fun q => .generatedQuery q.query q q.nodeId),
    g.queries⟩

/-- Entry behaviour of a node: a supplied retry node that is not the root
bypasses query generation entirely, reassigns the invocation's node id to
the retried node's own id, and makes that node's label/goal the sole query;
otherwise (fresh start or retry of the root) the generation phase runs. -/
def selectQueries (nodeId : String) (retryNode : Option DeepResearchNode)
    (genChunks : List GenChunk) : SelOut :=
  match retryNode with
  | some r =>
    if r.id = "0" then genPhase nodeId genChunks
    else ⟨r.id, [], [⟨some r.label, r.researchGoal, r.id⟩]⟩
  | none => genPhase nodeId genChunks

/-- The node id an invocation effectively runs under (after the retry-node
reassignment). -/
def effectiveNodeId (nodeId : String) (retryNode : Option DeepResearchNode) : String :=
  match retryNode with
  | some r => if r.id = "0" then nodeId else r.id
  | none => nodeId

/-- What one branch decides to do, with the events emitted up to that
decision.  `failed` means an error was thrown inside the branch (the events
do not yet include the `error` event the catch handler reports); `recurse`
carries the depth-bound proof the decision established, the merged learning
list handed down, and the recursion's query text. -/
inductive BranchDecision (currentDepth maxDepth : Nat) : Type where
  | skip
  | failed (events : List ResearchStep) (message : String)
  | leaf (events : List ResearchStep) (allLearnings : List Learning)
      (settled : PartialProcessedSearchResult)
  | recurse (events : List ResearchStep) (allLearnings : List Learning)
      (settled : PartialProcessedSearchResult) (nextQuery : String)
      (hd : currentDepth + 1 ≤ maxDepth)

/-- The body of one branch up to its recursion decision, mirroring the
per-query callback of `deepResearch`: skip a query with no resolved text;
search (a failure is thrown and caught by the branch); stream the processing
result; if the stream's iterator rejects after the loop (only reachable when
no chunk broke the loop), that failure is thrown; back-fill titles; merge the
branch's learnings onto the inherited ones; report the branch's
`node_complete`; then recurse exactly when `currentDepth + 1 ≤ maxDepth` and
at least one follow-up question was produced. -/
def branchCore (breadth maxDepth : Nat) (learnings : List Learning) (currentDepth : Nat)
    (sq : NodeSearchQuery) (benv : BranchEnv) : BranchDecision currentDepth maxDepth :=
  if truthyStr sq.query = false then .skip
  else
    let q := sq.query.getD ""
    match benv.search with
    | .error m => .failed [.searching q sq.nodeId] m
    | .ok results =>
      let p := procLoop sq.nodeId q benv.procChunks ⟨none, none⟩
      let preEvents := ResearchStep.searching q sq.nodeId ::
        ResearchStep.searchComplete results sq.nodeId :: p.events
      match p.broke, benv.procThrow with
      | false, some m => .failed preEvents m
      | _, _ =>
        let srl := p.result.learnings.map (List.map (addTitle results))
        let fus := p.result.followUpQuestions.getD []
        let allLearnings := learnings ++ srl.getD []
        let events := preEvents ++
          [.nodeComplete (some ⟨srl.getD [], fus⟩) sq.nodeId]
        if h : currentDepth + 1 ≤ maxDepth ∧ fus ≠ [] then
          .recurse events allLearnings ⟨srl, p.result.followUpQuestions⟩
            (nextQueryText sq.researchGoal fus) h.1
        else
          .leaf events allLearnings ⟨srl, p.result.followUpQuestions⟩

/-- Output of one `deepResearch` invocation: the progress-event trace, the
resolved value, and the limiter operations it performed. -/
structure RunOut where
  trace : List ResearchStep
  result : ResearchResult
  ops : List LimOp
deriving DecidableEq, Repr

/-- Output of fanning one branch out, plus instrumentation: whether the
branch recursed, and the settled processed result it decided on (`none` when
the branch never reached its recursion decision). -/
structure BranchOut where
  trace : List ResearchStep
  result : ResearchResult
  ops : List LimOp
  recursed : Bool
  settled : Option PartialProcessedSearchResult
deriving DecidableEq, Repr

/-- Output of the whole fan-out: traces concatenated in child order, one
result per child, limiter operations in execution order. -/
structure FanOut where
  trace : List ResearchStep
  results : List ResearchResult
  ops : List LimOp
deriving DecidableEq, Repr

mutual
/-- `deepResearch`: select the child queries (generated or retried), fan
them out under the shared limiter, deduplicate the settled branch results by
url, emit the single `complete` event when the effective node id is the root
id, and resolve with the final learnings.  (The `query` argument only feeds
the external generation prompt, which the environment supplies.) -/
def deepResearch (query : String) (breadth maxDepth : Nat) (learnings : List Learning)
    (currentDepth : Nat) (nodeId : String) (retryNode : Option DeepResearchNode)
    (env : Env) : RunOut :=
  let sel := selectQueries nodeId retryNode env.genChunks
  let fan := fanOut breadth maxDepth learnings currentDepth sel.queries env.branches
  let finalLearnings := concludeResults fan.results
  ⟨sel.events ++ fan.trace ++
      (if sel.activeNodeId = "0" then [.complete finalLearnings] else []),
    ⟨finalLearnings⟩, fan.ops⟩
termination_by (maxDepth + 1 - currentDepth, 2, 0)

/-- Fan the child queries out: one branch per query, each using the next
branch environment positionally. -/
def fanOut (breadth maxDepth : Nat) (learnings : List Learning) (currentDepth : Nat)
    (qs : List NodeSearchQuery) (benvs : List BranchEnv) : FanOut :=
  match qs with
  | [] => ⟨[], [], []⟩
  | sq :: rest =>
    let b := runBranch breadth maxDepth learnings currentDepth sq (benvs.headD defaultBranchEnv)
    let f := fanOut breadth maxDepth learnings currentDepth rest benvs.tail
    ⟨b.trace ++ f.trace, b.result :: f.results, b.ops ++ f.ops⟩
termination_by (maxDepth + 1 - currentDepth, 1, qs.length)

/-- Run one branch under the limiter: act on its `branchCore` decision.  A
thrown error is caught here: it reports an `error` event for the branch's
node id and the branch yields `{ learnings: [] }`.  A recursing branch
increments the shared capacity by one immediately before awaiting the
recursive call and decrements it again when that call settles, and resolves
to the recursive call's result; next breadth is `ceil(breadth / 2)`. -/
def runBranch (breadth maxDepth : Nat) (learnings : List Learning) (currentDepth : Nat)
    (sq : NodeSearchQuery) (benv : BranchEnv) : BranchOut :=
  match branchCore breadth maxDepth learnings currentDepth sq benv with
  | .skip => ⟨[], ⟨[]⟩, [.acquire, .release], false, none⟩
  | .failed events m =>
    ⟨events ++ [.error m sq.nodeId], ⟨[]⟩, [.acquire, .release], false, none⟩
  | .leaf events allLearnings sr =>
    ⟨events, ⟨allLearnings⟩, [.acquire, .release], false, some sr⟩
  | .recurse events allLearnings sr nextQuery hd =>
    let sub := deepResearch nextQuery ((breadth + 1) / 2) maxDepth allLearnings
      (currentDepth + 1) sq.nodeId none benv.sub
    ⟨events ++ sub.trace, sub.result, .acquire :: .inc :: sub.ops ++ [.dec, .release],
      true, some sr⟩
termination_by (maxDepth + 1 - currentDepth, 0, 0)
decreasing_by
  all_goals simp_wf
  all_goals exact Prod.Lex.left _ _ (by omega)
end

/-- Whether a progress event is the final `complete` event. -/
def isCompleteStep : ResearchStep → Bool
  | .complete _ => true
  | _ => false

/-- The `complete` events of a trace, in order. -/
def completes (trace : List ResearchStep) : List ResearchStep :=
  trace.filter isCompleteStep

/-- The events a branch decision carries. -/
def BranchDecision.eventsOf {currentDepth maxDepth : Nat} :
    BranchDecision currentDepth maxDepth → List ResearchStep
  | .skip => []
  | .failed events _ => events
  | .leaf events _ _ => events
  | .recurse events _ _ _ _ => events

/-- Capacity change of one limiter operation. -/
def LimOp.capDelta : LimOp → Int
  | .inc => 1
  | .dec => -1
  | .acquire => 0
  | .release => 0

/-- In-flight change of one limiter operation. -/
def LimOp.flightDelta : LimOp → Int
  | .acquire => 1
  | .release => -1
  | .inc => 0
  | .dec => 0

/-- Capacity after a sequence of limiter operations. -/
def capAfter (c : Int) : List LimOp → Int
  | [] => c
  | op :: t => capAfter (c + op.capDelta) t

/-- In-flight count after a sequence of limiter operations. -/
def inFlightAfter (f : Int) : List LimOp → Int
  | [] => f
  | op :: t => inFlightAfter (f + op.flightDelta) t

/-- After every operation, capacity stays at or above the floor `c0`: every
decrement so far is matched by a previous increment. -/
def capFloorOk (c0 c : Int) : List LimOp → Bool
  | [] => true
  | op :: t => (decide (c0 ≤ c + op.capDelta)) && capFloorOk c0 (c + op.capDelta) t

/-- After every operation, the in-flight count stays at or below capacity. -/
def flightOk (c f : Int) : List LimOp → Bool
  | [] => true
  | op :: t => (decide (f + op.flightDelta ≤ c + op.capDelta)) &&
      flightOk (c + op.capDelta) (f + op.flightDelta) t

/-- The limiter-operation list of a fully settled computation: it restores
capacity and in-flight count, never takes capacity below its starting value
(every decrement is matched by a prior increment), and — whenever the
in-flight count starts strictly below capacity — keeps in-flight at or below
capacity at every observation point. -/
def OpsGood (ops : List LimOp) : Prop :=
  (∀ c : Int, capAfter c ops = c) ∧
  (∀ f : Int, inFlightAfter f ops = f) ∧
  (∀ c : Int, capFloorOk c c ops = true) ∧
  (∀ c f : Int, f < c → flightOk c f ops = true)


theorem dedupeKeep_sublist (seen : List (Option String)) (ls : List Learning) :
    (dedupeKeep seen ls).Sublist ls := by
  induction ls generalizing seen with
  | nil => simp [dedupeKeep]
  | cons l ls ih =>
    simp only [dedupeKeep]
    split
    · exact (ih seen).cons l
    · exact (ih _).cons₂ l

theorem dedupeKeep_url_not_mem_seen (seen : List (Option String)) (ls : List Learning) :
    ∀ l' ∈ dedupeKeep seen ls, l'.url ∉ seen := by
  induction ls generalizing seen with
  | nil => simp [dedupeKeep]
  | cons l ls ih =>
    simp only [dedupeKeep]
    split
    · exact ih seen
    · intro l' hl'
      rcases List.mem_cons.mp hl' with h | h
      · subst h; assumption
      · intro hs
        exact (ih _ l' h) (List.mem_cons_of_mem _ hs)

theorem dedupeKeep_nodup (seen : List (Option String)) (ls : List Learning) :
    ((dedupeKeep seen ls).map Learning.url).Nodup := by
  induction ls generalizing seen with
  | nil => simp [dedupeKeep]
  | cons l ls ih =>
    simp only [dedupeKeep]
    split
    · exact ih seen
    · rw [List.map_cons, List.nodup_cons]
      refine ⟨?_, ih _⟩
      intro hmem
      rcases List.mem_map.mp hmem with ⟨l', hl', hurl⟩
      exact dedupeKeep_url_not_mem_seen _ _ l' hl' (hurl ▸ List.mem_cons_self _ _)

theorem dedupeKeep_find? (seen : List (Option String)) (ls : List Learning)
    (u : Option String) (hu : u ∉ seen) :
    (dedupeKeep seen ls).find? (fun l => l.url == u) = ls.find? (fun l => l.url == u) := by
  induction ls generalizing seen with
  | nil => rfl
  | cons l ls ih =>
    simp only [dedupeKeep]
    by_cases hm : l.url ∈ seen
    · rw [if_pos hm, ih seen hu, List.find?_cons_of_neg]
      intro hcon
      rw [beq_iff_eq] at hcon
      exact hu (hcon ▸ hm)
    · rw [if_neg hm]
      by_cases he : l.url = u
      · rw [List.find?_cons_of_pos, List.find?_cons_of_pos] <;> simp [he]
      · rw [List.find?_cons_of_neg, List.find?_cons_of_neg, ih]
        · simp only [List.mem_cons, not_or]
          exact ⟨fun h => he h.symm, hu⟩
        · simp [he]
        · simp [he]

theorem assignIds_map_pair (parent : String) (start : Nat) (qs : List PartialSearchQuery) :
    (assignIds parent start qs).map (fun s => (s.query, s.researchGoal)) =
      qs.map (fun q => (q.query, q.researchGoal)) := by
  induction qs generalizing start with
  | nil => rfl
  | cons q qs ih => simp [assignIds, ih]

theorem assignIds_map_nodeId (parent : String) (start : Nat) (qs : List PartialSearchQuery) :
    (assignIds parent start qs).map NodeSearchQuery.nodeId =
      (List.range' start qs.length).map (childNodeId parent) := by
  induction qs generalizing start with
  | nil => rfl
  | cons q qs ih => simp [assignIds, ih, List.range']

theorem assignIds_length (parent : String) (start : Nat) (qs : List PartialSearchQuery) :
    (assignIds parent start qs).length = qs.length := by
  induction qs generalizing start with
  | nil => rfl
  | cons q qs ih => simp [assignIds, ih]

theorem dropThroughDash_append (l r : List Char) (h : '-' ∉ l) :
    dropThroughDash (l ++ '-' :: r) = r := by
  induction l with
  | nil => simp [dropThroughDash]
  | cons c cs ih =>
    rw [List.cons_append, dropThroughDash, if_neg, ih]
    · intro hc
      exact h (List.mem_cons_of_mem _ hc)
    · intro hc
      exact h (hc ▸ List.mem_cons_self _ _)

theorem childNodeId_data (p : String) (i : Nat) :
    (childNodeId p i).data = p.data ++ '-' :: (toString i).data := by
  show ((p ++ "-") ++ toString i).data = _
  rw [String.data_append, String.data_append, List.append_assoc]
  rfl

theorem childNodeId_ne_root (p : String) (i : Nat) : childNodeId p i ≠ "0" := by
  intro h
  have hd : (childNodeId p i).data = ['0'] := by rw [h]
  rw [childNodeId_data] at hd
  rcases hp : p.data with _ | ⟨c, cs⟩
  · rw [hp, List.nil_append] at hd
    exact absurd (List.head_eq_of_cons_eq hd) (by decide)
  · rw [hp, List.cons_append] at hd
    have := List.tail_eq_of_cons_eq hd
    exact absurd (congrArg List.length this) (by simp)

theorem parentOf_childNodeId (p : String) (i : Nat) (h : '-' ∉ (toString i).data) :
    parentOf (childNodeId p i) = p := by
  show String.mk (dropThroughDash (childNodeId p i).data.reverse).reverse = p
  rw [childNodeId_data, List.reverse_append, List.reverse_cons, List.append_assoc,
    List.singleton_append, dropThroughDash_append, List.reverse_reverse]
  intro hc
  exact h (List.mem_reverse.mp hc)


theorem completes_append (a b : List ResearchStep) :
    completes (a ++ b) = completes a ++ completes b := by
  simp [completes]

theorem completes_eq_nil (a : List ResearchStep)
    (h : ∀ e ∈ a, isCompleteStep e = false) : completes a = [] := by
  simpa [completes, List.filter_eq_nil_iff] using h

theorem procLoop_no_complete (nodeId query : String) (chunks : List ProcChunk)
    (acc : PartialProcessedSearchResult) :
    ∀ e ∈ (procLoop nodeId query chunks acc).events, isCompleteStep e = false := by
  induction chunks generalizing acc with
  | nil => simp [procLoop]
  | cons c rest ih =>
    rcases c with v | dl | m | _ <;> simp only [procLoop] <;> intro e he
    · rcases List.mem_cons.mp he with h | h
      · subst h; rfl
      · exact ih v e h
    · rcases List.mem_cons.mp he with h | h
      · subst h; rfl
      · exact ih acc e h
    · rcases List.mem_singleton.mp he with h
      subst h; rfl
    · rcases List.mem_singleton.mp he with h
      subst h; rfl

theorem genLoop_no_complete (nodeId : String) (chunks : List GenChunk)
    (acc : List NodeSearchQuery) :
    ∀ e ∈ (genLoop nodeId chunks acc).events, isCompleteStep e = false := by
  induction chunks generalizing acc with
  | nil => simp [genLoop]
  | cons c rest ih =>
    rcases c with qs | dl | m | _
    · rcases qs with _ | qs
      · exact ih acc
      · simp only [genLoop]
        intro e he
        rcases List.mem_append.mp he with h | h
        · rcases List.mem_map.mp h with ⟨q, _, hq⟩
          subst hq; rfl
        · exact ih _ e h
    · simp only [genLoop]
      intro e he
      rcases List.mem_cons.mp he with h | h
      · subst h; rfl
      · exact ih acc e h
    · simp only [genLoop]
      intro e he
      rcases List.mem_singleton.mp he with h
      subst h; rfl
    · simp only [genLoop]
      intro e he
      rcases List.mem_singleton.mp he with h
      subst h; rfl

theorem genPhase_no_complete (nodeId : String) (chunks : List GenChunk) :
    ∀ e ∈ (genPhase nodeId chunks).events, isCompleteStep e = false := by
  intro e he
  simp only [genPhase] at he
  rcases List.mem_append.mp he with h | h
  · rcases List.mem_append.mp h with h' | h'
    · exact genLoop_no_complete _ _ _ e h'
    · rcases List.mem_singleton.mp h' with h''
      subst h''; rfl
  · rcases List.mem_map.mp h with ⟨q, _, hq⟩
    subst hq; rfl

theorem selectQueries_no_complete (nodeId : String) (retryNode : Option DeepResearchNode)
    (chunks : List GenChunk) :
    ∀ e ∈ (selectQueries nodeId retryNode chunks).events, isCompleteStep e = false := by
  rcases retryNode with _ | r
  · exact genPhase_no_complete nodeId chunks
  · simp only [selectQueries]
    split
    · exact genPhase_no_complete nodeId chunks
    · simp

theorem branchCore_no_complete (breadth maxDepth : Nat) (learnings : List Learning)
    (currentDepth : Nat) (sq : NodeSearchQuery) (benv : BranchEnv) :
    ∀ e ∈ (branchCore breadth maxDepth learnings currentDepth sq benv).eventsOf,
      isCompleteStep e = false := by
  have hpre : ∀ (q : String) (rs : List WebSearchResult) (evs : List ResearchStep),
      (∀ e ∈ evs, isCompleteStep e = false) →
      ∀ e ∈ (ResearchStep.searching q sq.nodeId :: ResearchStep.searchComplete rs sq.nodeId ::
        evs), isCompleteStep e = false := by
    intro q rs evs hevs e he
    rcases List.mem_cons.mp he with h | h
    · subst h; rfl
    · rcases List.mem_cons.mp h with h' | h'
      · subst h'; rfl
      · exact hevs e h'
  have hpost : ∀ (q : String) (rs : List WebSearchResult) (evs : List ResearchStep)
      (pl : ProcessedSearchResult),
      (∀ e ∈ evs, isCompleteStep e = false) →
      ∀ e ∈ (ResearchStep.searching q sq.nodeId :: ResearchStep.searchComplete rs sq.nodeId ::
        evs) ++ [ResearchStep.nodeComplete (some pl) sq.nodeId], isCompleteStep e = false := by
    intro q rs evs pl hevs e he
    rcases List.mem_append.mp he with h | h
    · exact hpre q rs evs hevs e h
    · rcases List.mem_singleton.mp h with h'
      subst h'; rfl
  unfold branchCore
  split
  · simp [BranchDecision.eventsOf]
  · dsimp only
    split
    · dsimp only [BranchDecision.eventsOf]
      intro e he
      rcases List.mem_singleton.mp he with h
      subst h; rfl
    · split
      · dsimp only [BranchDecision.eventsOf]
        exact hpre _ _ _ (procLoop_no_complete _ _ _ _)
      · split
        · dsimp only [BranchDecision.eventsOf]
          exact hpost _ _ _ _ (procLoop_no_complete _ _ _ _)
        · dsimp only [BranchDecision.eventsOf]
          exact hpost _ _ _ _ (procLoop_no_complete _ _ _ _)

theorem assignIds_nodeId_mem (parent : String) (start : Nat) (qs : List PartialSearchQuery) :
    ∀ sq ∈ assignIds parent start qs, ∃ i, sq.nodeId = childNodeId parent i := by
  induction qs generalizing start with
  | nil => simp [assignIds]
  | cons q qs ih =>
    intro sq hsq
    rcases List.mem_cons.mp hsq with h | h
    · exact ⟨start, by rw [h]⟩
    · exact ih (start + 1) sq h

theorem settleQueries_nodeId_mem (nodeId : String) (qs : List PartialSearchQuery) :
    ∀ sq ∈ settleQueries nodeId qs, ∃ i, sq.nodeId = childNodeId nodeId i :=
  assignIds_nodeId_mem nodeId 0 _

theorem genLoop_queries_mem (nodeId : String) (chunks : List GenChunk)
    (acc : List NodeSearchQuery)
    (hacc : ∀ sq ∈ acc, ∃ i, sq.nodeId = childNodeId nodeId i) :
    ∀ sq ∈ (genLoop nodeId chunks acc).queries, ∃ i, sq.nodeId = childNodeId nodeId i := by
  induction chunks generalizing acc with
  | nil => exact hacc
  | cons c rest ih =>
    rcases c with qs | dl | m | _
    · rcases qs with _ | qs
      · exact ih acc hacc
      · exact ih _ (settleQueries_nodeId_mem nodeId qs)
    · exact ih acc hacc
    · exact hacc
    · exact hacc

theorem selectQueries_queries_ne_root (nodeId : String) (retryNode : Option DeepResearchNode)
    (chunks : List GenChunk) :
    ∀ sq ∈ (selectQueries nodeId retryNode chunks).queries, sq.nodeId ≠ "0" := by
  have hgen : ∀ sq ∈ (genPhase nodeId chunks).queries, sq.nodeId ≠ "0" := by
    intro sq hsq
    rcases genLoop_queries_mem nodeId chunks [] (by simp) sq hsq with ⟨i, hi⟩
    rw [hi]
    exact childNodeId_ne_root nodeId i
  rcases retryNode with _ | r
  · exact hgen
  · simp only [selectQueries]
    split
    · exact hgen
    · rename_i hr
      intro sq hsq
      rcases List.mem_singleton.mp hsq with h
      subst h
      exact hr

theorem selectQueries_activeNodeId (nodeId : String) (retryNode : Option DeepResearchNode)
    (chunks : List GenChunk) :
    (selectQueries nodeId retryNode chunks).activeNodeId = effectiveNodeId nodeId retryNode := by
  rcases retryNode with _ | r
  · rfl
  · simp only [selectQueries, effectiveNodeId]
    split <;> rfl

theorem runBranch_completes_param (breadth maxDepth : Nat) (learnings : List Learning)
    (currentDepth : Nat) (sq : NodeSearchQuery) (benv : BranchEnv)
    (hdeep : currentDepth + 1 ≤ maxDepth → ∀ (q' : String) (b' : Nat) (lrn' : List Learning),
      completes (deepResearch q' b' maxDepth lrn' (currentDepth + 1) sq.nodeId none
        benv.sub).trace = []) :
    completes (runBranch breadth maxDepth learnings currentDepth sq benv).trace = [] := by
  have hcore := branchCore_no_complete breadth maxDepth learnings currentDepth sq benv
  rcases hc : branchCore breadth maxDepth learnings currentDepth sq benv with
    _ | ⟨evs, m⟩ | ⟨evs, a, sr⟩ | ⟨evs, a, sr, nq, hd⟩ <;>
    rw [hc] at hcore <;> rw [runBranch, hc]
  · rfl
  · rw [completes_append, completes_eq_nil evs hcore]
    rfl
  · exact completes_eq_nil evs hcore
  · rw [completes_append, completes_eq_nil evs hcore, hdeep hd]
    rfl

theorem fanOut_completes_param (breadth maxDepth : Nat) (learnings : List Learning)
    (currentDepth : Nat) (qs : List NodeSearchQuery) (benvs : List BranchEnv)
    (hbr : ∀ sq ∈ qs, ∀ benv : BranchEnv,
      completes (runBranch breadth maxDepth learnings currentDepth sq benv).trace = []) :
    completes (fanOut breadth maxDepth learnings currentDepth qs benvs).trace = [] := by
  induction qs generalizing benvs with
  | nil => rw [fanOut]; rfl
  | cons sq rest ih =>
    rw [fanOut]
    rw [completes_append, hbr sq (List.mem_cons_self _ _),
      ih benvs.tail (fun sq' h' benv => hbr sq' (List.mem_cons_of_mem _ h') benv)]
    rfl

theorem deepResearch_completes_aux (m : Nat) : ∀ (maxDepth currentDepth : Nat),
    maxDepth - currentDepth < m →
    ∀ (query : String) (breadth : Nat) (learnings : List Learning) (nodeId : String)
      (retryNode : Option DeepResearchNode) (env : Env),
    effectiveNodeId nodeId retryNode ≠ "0" →
    completes (deepResearch query breadth maxDepth learnings currentDepth nodeId retryNode
      env).trace = [] := by
  induction m with
  | zero => omega
  | succ m ih =>
    intro md d hmd q b lrn nid retry env heff
    rw [deepResearch, completes_append, completes_append]
    rw [completes_eq_nil _ (selectQueries_no_complete nid retry env.genChunks)]
    rw [selectQueries_activeNodeId, if_neg heff]
    rw [fanOut_completes_param]
    · rfl
    · intro sq hsq benv
      apply runBranch_completes_param
      intro hdm q' b' lrn'
      have hne : effectiveNodeId sq.nodeId none ≠ "0" :=
        selectQueries_queries_ne_root nid retry env.genChunks sq hsq
      exact ih md (d + 1) (by omega) q' b' lrn' sq.nodeId none benv.sub hne

theorem deepResearch_completes_of_ne_root (query : String) (breadth maxDepth : Nat)
    (learnings : List Learning) (currentDepth : Nat) (nodeId : String)
    (retryNode : Option DeepResearchNode) (env : Env)
    (h : effectiveNodeId nodeId retryNode ≠ "0") :
    completes (deepResearch query breadth maxDepth learnings currentDepth nodeId retryNode
      env).trace = [] :=
  deepResearch_completes_aux (maxDepth - currentDepth + 1) maxDepth currentDepth (by omega)
    query breadth learnings nodeId retryNode env h

/-- C6: a supplied retry node whose id is not the root id bypasses query
generation entirely: no query-generation events are emitted, and exactly one
child query is produced, reusing the retried node's own NodeId with its
label as query text and its researchGoal as goal. -/
theorem selectQueries_retry_nonroot (nodeId : String) (r : DeepResearchNode)
    (chunks : List GenChunk) (h : r.id ≠ "0") :
    selectQueries nodeId (some r) chunks =
      ⟨r.id, [], [⟨some r.label, r.researchGoal, r.id⟩]⟩ := by
  simp only [selectQueries, if_neg h]

theorem selectQueries_retry_nonroot_witness :
    ("0-1" : String) ≠ "0" ∧
      selectQueries "0" (some ⟨"0-1", "X", some "Y"⟩) [.reasoning "r", .badEnd] =
        ⟨"0-1", [], [⟨some "X", some "Y", "0-1"⟩]⟩ :=
  ⟨by decide, selectQueries_retry_nonroot "0" ⟨"0-1", "X", some "Y"⟩
    [.reasoning "r", .badEnd] (by decide)⟩

/-- C1: a full root invocation (root NodeId `"0"`, no retry node) emits
exactly one `complete` event across the whole trace — so only the root node
emits it — and it carries exactly the learnings the promise resolves
with. -/
theorem deepResearch_root_complete_unique (query : String) (breadth maxDepth : Nat)
    (learnings : List Learning) (currentDepth : Nat) (env : Env) :
    completes (deepResearch query breadth maxDepth learnings currentDepth "0" none env).trace =
      [.complete (deepResearch query breadth maxDepth learnings currentDepth "0" none
        env).result.learnings] := by
  rw [deepResearch]
  rw [completes_append, completes_append,
    completes_eq_nil _ (selectQueries_no_complete "0" none env.genChunks),
    selectQueries_activeNodeId]
  rw [if_pos (show effectiveNodeId "0" none = "0" from rfl)]
  rw [fanOut_completes_param]
  · rfl
  · intro sq hsq benv
    apply runBranch_completes_param
    intro hdm q' b' lrn'
    exact deepResearch_completes_of_ne_root q' b' maxDepth lrn' (currentDepth + 1)
      sq.nodeId none benv.sub
      (selectQueries_queries_ne_root "0" none env.genChunks sq hsq)

/-- C7: an outermost call supplied with a retry node whose id is not `"0"`
has its effective node id reassigned to the retried node's id, so it emits
no `complete` event anywhere in its trace, yet still resolves with the
deduplicated learnings of the retried subtree (the fan-out over the single
retried query). -/
theorem deepResearch_retry_no_complete (query : String) (breadth maxDepth : Nat)
    (learnings : List Learning) (currentDepth : Nat) (r : DeepResearchNode) (env : Env)
    (h : r.id ≠ "0") :
    completes (deepResearch query breadth maxDepth learnings currentDepth "0" (some r)
        env).trace = [] ∧
      (deepResearch query breadth maxDepth learnings currentDepth "0" (some r)
          env).result.learnings =
        concludeResults (fanOut breadth maxDepth learnings currentDepth
          [⟨some r.label, r.researchGoal, r.id⟩] env.branches).results := by
  constructor
  · apply deepResearch_completes_of_ne_root
    simp only [effectiveNodeId, if_neg h]
    exact h
  · rw [deepResearch, selectQueries_retry_nonroot "0" r env.genChunks h]

theorem deepResearch_retry_no_complete_witness :
    ("0-1" : String) ≠ "0" ∧
      (completes (deepResearch "q" 1 1 [] 0 "0" (some ⟨"0-1", "X", none⟩)
          (.mk [] [])).trace = [] ∧
        (deepResearch "q" 1 1 [] 0 "0" (some ⟨"0-1", "X", none⟩)
            (.mk [] [])).result.learnings =
          concludeResults (fanOut 1 1 [] 0 [⟨some "X", none, "0-1"⟩]
            (Env.mk [] []).branches).results) :=
  ⟨by decide, deepResearch_retry_no_complete "q" 1 1 [] 0 ⟨"0-1", "X", none⟩
    (.mk [] []) (by decide)⟩

/-- C2: the aggregated learning list of a node whose branches have all
settled keeps the relative order of the flattened branch results (a
sublist), contains each `url` at most once, keeps for each `url` exactly the
first learning encountered (branch results in child order, learnings in list
order), and contains a `url` exactly when some branch produced it. -/
theorem concludeResults_dedup (results : List ResearchResult) :
    (concludeResults results).Sublist (results.map ResearchResult.learnings).flatten
    ∧ ((concludeResults results).map Learning.url).Nodup
    ∧ (∀ u : Option String,
        (concludeResults results).find? (fun l => l.url == u) =
          ((results.map ResearchResult.learnings).flatten).find? (fun l => l.url == u))
    ∧ (∀ u : Option String,
        u ∈ (concludeResults results).map Learning.url ↔
          u ∈ ((results.map ResearchResult.learnings).flatten).map Learning.url) := by
  refine ⟨dedupeKeep_sublist [] _, dedupeKeep_nodup [] _,
    fun u => dedupeKeep_find? [] _ u (by simp), fun u => ?_⟩
  have hf := dedupeKeep_find? [] ((results.map ResearchResult.learnings).flatten) u (by simp)
  constructor
  · intro hu
    exact ((dedupeKeep_sublist [] _).map Learning.url).mem hu
  · intro hu
    rcases List.mem_map.mp hu with ⟨l, hl, hurl⟩
    have hsome : (((results.map ResearchResult.learnings).flatten).find?
        (fun l => l.url == u)).isSome :=
      List.find?_isSome.mpr ⟨l, hl, by simp [hurl]⟩
    rcases Option.isSome_iff_exists.mp hsome with ⟨l', hl'⟩
    refine List.mem_map.mpr ⟨l', List.mem_of_find?_eq_some (hf ▸ hl'), ?_⟩
    have := List.find?_some (hf ▸ hl')
    simpa using this

/-- C9: a settled query-array snapshot preserves the model-output order,
drops exactly the entries whose query text is the literal `'undefined'`
fallback, and assigns each retained query the child NodeId of its 0-based
position in the filtered list. -/
theorem settleQueries_spec (nodeId : String) (qs : List PartialSearchQuery) :
    ((settleQueries nodeId qs).map (fun s => (s.query, s.researchGoal)) =
      (qs.filter (fun q => q.query != some "undefined")).map
        (fun q => (q.query, q.researchGoal)))
    ∧ ((settleQueries nodeId qs).map NodeSearchQuery.nodeId =
      (List.range (qs.filter (fun q => q.query != some "undefined")).length).map
        (childNodeId nodeId)) := by
  refine ⟨assignIds_map_pair _ _ _, ?_⟩
  rw [settleQueries, assignIds_map_nodeId, List.range_eq_range']

/-- C8: `childNodeId(p, i)` is the string `"{p}-{i}"`, and taking the prefix
before the last `-` recovers `p`, provided the decimal rendering of `i`
contains no `-`. -/
theorem childNodeId_parentOf_roundtrip (p : String) (i : Nat)
    (h : '-' ∉ (toString i).data) :
    childNodeId p i = p ++ "-" ++ toString i ∧ parentOf (childNodeId p i) = p :=
  ⟨rfl, parentOf_childNodeId p i h⟩

theorem childNodeId_parentOf_roundtrip_witness :
    ('-' ∉ (toString 7).data) ∧
      (childNodeId "0-1" 7 = "0-1" ++ "-" ++ toString 7 ∧
        parentOf (childNodeId "0-1" 7) = "0-1") :=
  ⟨by decide, childNodeId_parentOf_roundtrip "0-1" 7 (by decide)⟩

/-- C10: when an invocation's captured child-query list is empty (for
example because the generation stream errored or bad-ended before any
snapshot settled), the call resolves to `{ learnings: [] }` even when a
non-empty inherited learnings argument was passed in, and at the root a
`complete` event carrying the empty list is still the one `complete` event
of the trace. -/
theorem deepResearch_empty_queries_root (query : String) (breadth maxDepth : Nat)
    (learnings : List Learning) (currentDepth : Nat) (env : Env)
    (h : (genLoop "0" env.genChunks []).queries = []) :
    (deepResearch query breadth maxDepth learnings currentDepth "0" none env).result =
        ⟨[]⟩ ∧
      completes (deepResearch query breadth maxDepth learnings currentDepth "0" none
        env).trace = [.complete []] := by
  have hq : (selectQueries "0" none env.genChunks).queries = [] := h
  rw [deepResearch, hq]
  rw [fanOut]
  constructor
  · rfl
  · rw [completes_append, completes_append,
      completes_eq_nil _ (selectQueries_no_complete "0" none env.genChunks),
      selectQueries_activeNodeId]
    rw [if_pos (show effectiveNodeId "0" none = "0" from rfl)]
    rfl

theorem deepResearch_empty_queries_root_witness :
    ((genLoop "0" (Env.mk [.error "boom"] []).genChunks []).queries = []) ∧
      ((deepResearch "q" 2 3 [⟨some "u", some "l", none⟩] 0 "0" none
          (.mk [.error "boom"] [])).result = ⟨[]⟩ ∧
        completes (deepResearch "q" 2 3 [⟨some "u", some "l", none⟩] 0 "0" none
          (.mk [.error "boom"] [])).trace = [.complete []]) :=
  ⟨by decide, deepResearch_empty_queries_root "q" 2 3 [⟨some "u", some "l", none⟩] 0
    (.mk [.error "boom"] []) (by decide)⟩

theorem branchCore_leaf_not_cond {breadth maxDepth : Nat} {learnings : List Learning}
    {currentDepth : Nat} {sq : NodeSearchQuery} {benv : BranchEnv}
    {evs : List ResearchStep} {a : List Learning} {sr : PartialProcessedSearchResult}
    (h : branchCore breadth maxDepth learnings currentDepth sq benv = .leaf evs a sr) :
    ¬(currentDepth + 1 ≤ maxDepth ∧ sr.followUpQuestions.getD [] ≠ []) := by
  unfold branchCore at h
  by_cases ht : truthyStr sq.query = false
  · rw [if_pos ht] at h; cases h
  · rw [if_neg ht] at h
    rcases hs : benv.search with m | rs
    · rw [hs] at h; cases h
    · rw [hs] at h
      dsimp only at h
      rcases hb : (procLoop sq.nodeId (sq.query.getD "") benv.procChunks
          ⟨none, none⟩).broke with _ | _ <;>
        rcases hp : benv.procThrow with _ | m <;>
        rw [hb, hp] at h <;> dsimp only at h
      · split at h
        · injection h
        · rename_i hcond
          injection h with h1 h2 h3
          subst h3
          exact hcond
      · injection h
      · split at h
        · injection h
        · rename_i hcond
          injection h with h1 h2 h3
          subst h3
          exact hcond
      · split at h
        · injection h
        · rename_i hcond
          injection h with h1 h2 h3
          subst h3
          exact hcond

theorem branchCore_recurse_cond {breadth maxDepth : Nat} {learnings : List Learning}
    {currentDepth : Nat} {sq : NodeSearchQuery} {benv : BranchEnv}
    {evs : List ResearchStep} {a : List Learning} {sr : PartialProcessedSearchResult}
    {nq : String} {hd : currentDepth + 1 ≤ maxDepth}
    (h : branchCore breadth maxDepth learnings currentDepth sq benv =
      .recurse evs a sr nq hd) :
    sr.followUpQuestions.getD [] ≠ [] := by
  unfold branchCore at h
  by_cases ht : truthyStr sq.query = false
  · rw [if_pos ht] at h; cases h
  · rw [if_neg ht] at h
    rcases hs : benv.search with m | rs
    · rw [hs] at h; cases h
    · rw [hs] at h
      dsimp only at h
      rcases hb : (procLoop sq.nodeId (sq.query.getD "") benv.procChunks
          ⟨none, none⟩).broke with _ | _ <;>
        rcases hp : benv.procThrow with _ | m <;>
        rw [hb, hp] at h <;> dsimp only at h
      · split at h
        · rename_i hcond
          injection h with h1 h2 h3
          subst h3
          exact hcond.2
        · injection h
      · injection h
      · split at h
        · rename_i hcond
          injection h with h1 h2 h3
          subst h3
          exact hcond.2
        · injection h
      · split at h
        · rename_i hcond
          injection h with h1 h2 h3
          subst h3
          exact hcond.2
        · injection h

/-- C3: a branch makes its recursive call exactly when it reached its
recursion decision (`settled` processed result present) with
`currentDepth + 1 <= maxDepth` and at least one follow-up question; in
particular no branch recurses past the depth bound, and a branch with zero
follow-up questions never recurses. -/
theorem runBranch_recursion_decision (breadth maxDepth : Nat) (learnings : List Learning)
    (currentDepth : Nat) (sq : NodeSearchQuery) (benv : BranchEnv) :
    (runBranch breadth maxDepth learnings currentDepth sq benv).recursed = true ↔
      ∃ sr, (runBranch breadth maxDepth learnings currentDepth sq benv).settled = some sr ∧
        currentDepth + 1 ≤ maxDepth ∧ sr.followUpQuestions.getD [] ≠ [] := by
  rcases hc : branchCore breadth maxDepth learnings currentDepth sq benv with
    _ | ⟨evs, m⟩ | ⟨evs, a, sr⟩ | ⟨evs, a, sr, nq, hd⟩ <;> rw [runBranch, hc] <;> dsimp only
  · simp
  · simp
  · simp only [Bool.false_eq_true, false_iff, not_exists]
    intro sr' hsr'
    rcases hsr' with ⟨heq, h1, h2⟩
    rcases Option.some_inj.mp heq with heq'
    subst heq'
    exact branchCore_leaf_not_cond hc ⟨h1, h2⟩
  · simp only [true_iff]
    exact ⟨sr, rfl, hd, branchCore_recurse_cond hc⟩

theorem branchCore_search_error {breadth maxDepth : Nat} {learnings : List Learning}
    {currentDepth : Nat} {sq : NodeSearchQuery} {benv : BranchEnv} {q m : String}
    (hq : sq.query = some q) (hq' : q ≠ "") (hs : benv.search = .error m) :
    branchCore breadth maxDepth learnings currentDepth sq benv =
      .failed [.searching q sq.nodeId] m := by
  unfold branchCore
  rw [if_neg (by simp [truthyStr, hq, hq']), hs]
  simp only [hq, Option.getD_some]

theorem branchCore_proc_throw {breadth maxDepth : Nat} {learnings : List Learning}
    {currentDepth : Nat} {sq : NodeSearchQuery} {benv : BranchEnv} {q m : String}
    {rs : List WebSearchResult}
    (hq : sq.query = some q) (hq' : q ≠ "") (hs : benv.search = .ok rs)
    (hb : (procLoop sq.nodeId q benv.procChunks ⟨none, none⟩).broke = false)
    (hp : benv.procThrow = some m) :
    branchCore breadth maxDepth learnings currentDepth sq benv =
      .failed (ResearchStep.searching q sq.nodeId :: ResearchStep.searchComplete rs sq.nodeId ::
        (procLoop sq.nodeId q benv.procChunks ⟨none, none⟩).events) m := by
  unfold branchCore
  rw [if_neg (by simp [truthyStr, hq, hq']), hs]
  simp only [hq, Option.getD_some]
  rw [hb, hp]

theorem fanOut_results_length (breadth maxDepth : Nat) (learnings : List Learning)
    (currentDepth : Nat) (qs : List NodeSearchQuery) (benvs : List BranchEnv) :
    (fanOut breadth maxDepth learnings currentDepth qs benvs).results.length = qs.length := by
  induction qs generalizing benvs with
  | nil => rw [fanOut]; rfl
  | cons sq rest ih =>
    rw [fanOut]
    simp [ih]

/-- C4: an error thrown inside one branch (a failing web search, or an
unexpected processing failure after the stream is consumed) is caught within
that branch: an `error` event for the branch's NodeId appears in the
branch's trace, the branch resolves to `{ learnings: [] }` without
recursing; the fan-out still produces one settled result per sibling, and a
sibling's results are unchanged by the failing branch's environment — so the
parent aggregates and the root call resolves rather than rejecting. -/
theorem runBranch_error_isolated (breadth maxDepth : Nat) (learnings : List Learning)
    (currentDepth : Nat) (sq : NodeSearchQuery) (benv : BranchEnv) (q m : String)
    (hq : sq.query = some q) (hq' : q ≠ "")
    (herr : benv.search = .error m ∨
      ∃ rs, benv.search = .ok rs ∧
        (procLoop sq.nodeId q benv.procChunks ⟨none, none⟩).broke = false ∧
        benv.procThrow = some m) :
    (ResearchStep.error m sq.nodeId ∈
        (runBranch breadth maxDepth learnings currentDepth sq benv).trace ∧
      (runBranch breadth maxDepth learnings currentDepth sq benv).result = ⟨[]⟩ ∧
      (runBranch breadth maxDepth learnings currentDepth sq benv).recursed = false) ∧
    (∀ (qs : List NodeSearchQuery) (benvs : List BranchEnv) (benv' : BranchEnv),
      (fanOut breadth maxDepth learnings currentDepth (sq :: qs) (benv :: benvs)).results =
        (runBranch breadth maxDepth learnings currentDepth sq benv).result ::
          (fanOut breadth maxDepth learnings currentDepth qs benvs).results ∧
      ((fanOut breadth maxDepth learnings currentDepth (sq :: qs)
          (benv :: benvs)).results).tail =
        ((fanOut breadth maxDepth learnings currentDepth (sq :: qs)
          (benv' :: benvs)).results).tail) ∧
    (∀ (qs : List NodeSearchQuery) (benvs : List BranchEnv),
      (fanOut breadth maxDepth learnings currentDepth qs benvs).results.length =
        qs.length) := by
  refine ⟨?_, ?_, fun qs benvs => fanOut_results_length _ _ _ _ qs benvs⟩
  · rcases herr with hs | ⟨rs, hs, hb, hp⟩
    · rw [runBranch, branchCore_search_error hq hq' hs]
      refine ⟨?_, rfl, rfl⟩
      simp
    · rw [runBranch, branchCore_proc_throw hq hq' hs hb hp]
      refine ⟨?_, rfl, rfl⟩
      simp
  · intro qs benvs benv'
    constructor
    · rw [fanOut]
      simp
    · rw [fanOut, fanOut]
      simp

theorem runBranch_error_isolated_witness :
    (runBranch 2 1 [] 0 ⟨some "q", none, "0-0"⟩
        (.mk (.error "boom") [] none (.mk [] []))).result = ⟨[]⟩ :=
  (runBranch_error_isolated 2 1 [] 0 ⟨some "q", none, "0-0"⟩
    (.mk (.error "boom") [] none (.mk [] [])) "q" "boom" rfl (by decide)
    (Or.inl rfl)).1.2.1


theorem capAfter_append (c : Int) (l₁ l₂ : List LimOp) :
    capAfter c (l₁ ++ l₂) = capAfter (capAfter c l₁) l₂ := by
  induction l₁ generalizing c with
  | nil => rfl
  | cons op t ih => simp [capAfter, ih]

theorem inFlightAfter_append (f : Int) (l₁ l₂ : List LimOp) :
    inFlightAfter f (l₁ ++ l₂) = inFlightAfter (inFlightAfter f l₁) l₂ := by
  induction l₁ generalizing f with
  | nil => rfl
  | cons op t ih => simp [inFlightAfter, ih]

theorem capFloorOk_append (c0 c : Int) (l₁ l₂ : List LimOp) :
    capFloorOk c0 c (l₁ ++ l₂) =
      (capFloorOk c0 c l₁ && capFloorOk c0 (capAfter c l₁) l₂) := by
  induction l₁ generalizing c with
  | nil => simp [capFloorOk, capAfter]
  | cons op t ih =>
    simp [capFloorOk, capAfter, ih, Bool.and_assoc]

theorem flightOk_append (c f : Int) (l₁ l₂ : List LimOp) :
    flightOk c f (l₁ ++ l₂) =
      (flightOk c f l₁ && flightOk (capAfter c l₁) (inFlightAfter f l₁) l₂) := by
  induction l₁ generalizing c f with
  | nil => simp [flightOk, capAfter, inFlightAfter]
  | cons op t ih =>
    simp [flightOk, capAfter, inFlightAfter, ih, Bool.and_assoc]

theorem capFloorOk_mono (c0' c0 c : Int) (l : List LimOp) (h : c0' ≤ c0)
    (hl : capFloorOk c0 c l = true) : capFloorOk c0' c l = true := by
  induction l generalizing c with
  | nil => rfl
  | cons op t ih =>
    simp only [capFloorOk, Bool.and_eq_true, decide_eq_true_eq] at hl ⊢
    exact ⟨le_trans h hl.1, ih _ hl.2⟩


theorem opsGood_nil : OpsGood [] :=
  ⟨fun _ => rfl, fun _ => rfl, fun _ => rfl, fun _ _ _ => rfl⟩

theorem opsGood_append {l₁ l₂ : List LimOp} (h₁ : OpsGood l₁) (h₂ : OpsGood l₂) :
    OpsGood (l₁ ++ l₂) := by
  obtain ⟨hc₁, hf₁, hcf₁, hfo₁⟩ := h₁
  obtain ⟨hc₂, hf₂, hcf₂, hfo₂⟩ := h₂
  refine ⟨?_, ?_, ?_, ?_⟩
  · intro c; rw [capAfter_append, hc₁, hc₂]
  · intro f; rw [inFlightAfter_append, hf₁, hf₂]
  · intro c; rw [capFloorOk_append, hc₁, hcf₁, hcf₂]; rfl
  · intro c f hcf
    rw [flightOk_append, hc₁, hf₁, hfo₁ c f hcf, hfo₂ c f hcf]
    rfl

theorem opsGood_acquire_release : OpsGood [.acquire, .release] := by
  refine ⟨?_, ?_, ?_, ?_⟩ <;> intros <;>
    simp_all [capAfter, inFlightAfter, capFloorOk, flightOk, LimOp.capDelta,
      LimOp.flightDelta]
  omega

theorem opsGood_bracket {sub : List LimOp} (h : OpsGood sub) :
    OpsGood (.acquire :: .inc :: sub ++ [.dec, .release]) := by
  obtain ⟨hc, hf, hcf, hfo⟩ := h
  have hsplit : (LimOp.acquire :: LimOp.inc :: sub ++ [LimOp.dec, LimOp.release] : List LimOp) =
      [LimOp.acquire, LimOp.inc] ++ sub ++ [LimOp.dec, LimOp.release] := by simp
  have hA : ∀ x : Int, capAfter x [LimOp.acquire, LimOp.inc] = x + 1 := by
    intro x; simp [capAfter, LimOp.capDelta]
  have hB : ∀ x : Int, capAfter x [LimOp.dec, LimOp.release] = x - 1 := by
    intro x; simp [capAfter, LimOp.capDelta]; ring
  have hFA : ∀ x : Int, inFlightAfter x [LimOp.acquire, LimOp.inc] = x + 1 := by
    intro x; simp [inFlightAfter, LimOp.flightDelta]
  have hFB : ∀ x : Int, inFlightAfter x [LimOp.dec, LimOp.release] = x - 1 := by
    intro x; simp [inFlightAfter, LimOp.flightDelta]; ring
  refine ⟨?_, ?_, ?_, ?_⟩
  · intro c
    rw [hsplit, capAfter_append, capAfter_append, hA, hc, hB]
    ring
  · intro f
    rw [hsplit, inFlightAfter_append, inFlightAfter_append, hFA, hf, hFB]
    ring
  · intro c
    rw [hsplit, capFloorOk_append, capFloorOk_append, hA, capAfter_append, hA, hc]
    have g1 : capFloorOk c c [LimOp.acquire, LimOp.inc] = true := by
      simp [capFloorOk, LimOp.capDelta]
    have g2 : capFloorOk c (c + 1) sub = true :=
      capFloorOk_mono c (c + 1) _ _ (by omega) (hcf (c + 1))
    have g3 : capFloorOk c (c + 1) [LimOp.dec, LimOp.release] = true := by
      simp [capFloorOk, LimOp.capDelta]
    rw [g1, g2, g3]
    rfl
  · intro c f hlt
    rw [hsplit, flightOk_append, flightOk_append, hA, hFA, capAfter_append,
      inFlightAfter_append, hA, hFA, hc, hf]
    have g1 : flightOk c f [LimOp.acquire, LimOp.inc] = true := by
      simp [flightOk, LimOp.capDelta, LimOp.flightDelta]
      omega
    have g2 : flightOk (c + 1) (f + 1) sub = true := hfo (c + 1) (f + 1) (by omega)
    have g3 : flightOk (c + 1) (f + 1) [LimOp.dec, LimOp.release] = true := by
      simp [flightOk, LimOp.capDelta, LimOp.flightDelta]
      omega
    rw [g1, g2, g3]
    rfl

theorem runBranch_ops_param (breadth maxDepth : Nat) (learnings : List Learning)
    (currentDepth : Nat) (sq : NodeSearchQuery) (benv : BranchEnv)
    (hdeep : currentDepth + 1 ≤ maxDepth →
      ∀ (q' : String) (b' : Nat) (lrn' : List Learning),
      OpsGood (deepResearch q' b' maxDepth lrn' (currentDepth + 1) sq.nodeId none
        benv.sub).ops) :
    OpsGood (runBranch breadth maxDepth learnings currentDepth sq benv).ops := by
  rcases hc : branchCore breadth maxDepth learnings currentDepth sq benv with
    _ | ⟨evs, m⟩ | ⟨evs, a, sr⟩ | ⟨evs, a, sr, nq, hd⟩ <;> rw [runBranch, hc] <;> dsimp only
  · exact opsGood_acquire_release
  · exact opsGood_acquire_release
  · exact opsGood_acquire_release
  · exact opsGood_bracket (hdeep hd nq ((breadth + 1) / 2) a)

theorem fanOut_ops_param (breadth maxDepth : Nat) (learnings : List Learning)
    (currentDepth : Nat) (qs : List NodeSearchQuery) (benvs : List BranchEnv)
    (hbr : ∀ sq ∈ qs, ∀ benv : BranchEnv,
      OpsGood (runBranch breadth maxDepth learnings currentDepth sq benv).ops) :
    OpsGood (fanOut breadth maxDepth learnings currentDepth qs benvs).ops := by
  induction qs generalizing benvs with
  | nil => rw [fanOut]; exact opsGood_nil
  | cons sq rest ih =>
    rw [fanOut]
    exact opsGood_append (hbr sq (List.mem_cons_self _ _) _)
      (ih benvs.tail fun sq' h benv => hbr sq' (List.mem_cons_of_mem _ h) benv)

theorem deepResearch_ops_aux (m : Nat) : ∀ (maxDepth currentDepth : Nat),
    maxDepth - currentDepth < m →
    ∀ (query : String) (breadth : Nat) (learnings : List Learning) (nodeId : String)
      (retryNode : Option DeepResearchNode) (env : Env),
    OpsGood (deepResearch query breadth maxDepth learnings currentDepth nodeId retryNode
      env).ops := by
  induction m with
  | zero => omega
  | succ m ih =>
    intro md d hmd q b lrn nid retry env
    rw [deepResearch]
    dsimp only
    apply fanOut_ops_param
    intro sq hsq benv
    apply runBranch_ops_param
    intro hdm q' b' lrn'
    exact ih md (d + 1) (by omega) q' b' lrn' sq.nodeId none benv.sub

theorem deepResearch_ops (query : String) (breadth maxDepth : Nat)
    (learnings : List Learning) (currentDepth : Nat) (nodeId : String)
    (retryNode : Option DeepResearchNode) (env : Env) :
    OpsGood (deepResearch query breadth maxDepth learnings currentDepth nodeId retryNode
      env).ops :=
  deepResearch_ops_aux (maxDepth - currentDepth + 1) maxDepth currentDepth (by omega)
    query breadth learnings nodeId retryNode env

/-- C5: over a whole `deepResearch` call, capacity and in-flight count
return to their starting values (every increment matched by exactly one
decrement, every admission by one release), capacity never drops below its
starting value at any observation point, in-flight never exceeds capacity at
any observation point when it starts strictly below it, and a recursing
branch's limiter operations are exactly: acquire, increment immediately before
the awaited recursive call, the recursive call's own (balanced) operations,
then decrement and release when it settles. -/
theorem deepResearch_limiter_invariant (query : String) (breadth maxDepth : Nat)
    (learnings : List Learning) (currentDepth : Nat) (nodeId : String)
    (retryNode : Option DeepResearchNode) (env : Env) (c f : Int) (hcf : f < c) :
    capAfter c (deepResearch query breadth maxDepth learnings currentDepth nodeId
        retryNode env).ops = c ∧
    inFlightAfter f (deepResearch query breadth maxDepth learnings currentDepth nodeId
        retryNode env).ops = f ∧
    capFloorOk c c (deepResearch query breadth maxDepth learnings currentDepth nodeId
        retryNode env).ops = true ∧
    flightOk c f (deepResearch query breadth maxDepth learnings currentDepth nodeId
        retryNode env).ops = true ∧
    (∀ (sq : NodeSearchQuery) (benv : BranchEnv) (b' : Nat) (lrn' : List Learning),
      (runBranch b' maxDepth lrn' currentDepth sq benv).recursed = true →
      ∃ evs a sr nq hd,
        branchCore b' maxDepth lrn' currentDepth sq benv =
          .recurse evs a sr nq hd ∧
        (runBranch b' maxDepth lrn' currentDepth sq benv).ops =
          .acquire :: .inc :: (deepResearch nq ((b' + 1) / 2) maxDepth a (currentDepth + 1)
            sq.nodeId none benv.sub).ops ++ [.dec, .release]) := by
  obtain ⟨h1, h2, h3, h4⟩ :=
    deepResearch_ops query breadth maxDepth learnings currentDepth nodeId retryNode env
  refine ⟨h1 c, h2 f, h3 c, h4 c f hcf, ?_⟩
  intro sq benv b' lrn' hrec
  rcases hc : branchCore b' maxDepth lrn' currentDepth sq benv with
    _ | ⟨evs, m⟩ | ⟨evs, a, sr⟩ | ⟨evs, a, sr, nq, hd⟩ <;> rw [runBranch, hc] at hrec ⊢
  · cases hrec
  · cases hrec
  · cases hrec
  · exact ⟨evs, a, sr, nq, hd, rfl, rfl⟩

theorem deepResearch_limiter_invariant_witness :
    capAfter 10 (deepResearch "q" 2 1 [] 0 "0" none (.mk [] [])).ops = 10 :=
  (deepResearch_limiter_invariant "q" 2 1 [] 0 "0" none (.mk [] []) 10 0 (by decide)).1
